import Mathlib

/-!
# A shallow embedding of the csvmonkey CSV parser (csvmonkey.hpp)

Bytes are modelled as natural numbers (their unsigned values, `< 256` in
practice; only equality tests on bytes occur in the code).  The carriage
return is byte 13 and the line feed byte 10.

The embedding covers:

* `CsvCell` and `CsvCell.as_str` (quote/escape collapsing);
* the two string spanners, `StringSpannerFallback` (a 256-entry table
  scanned four bytes at a time) and `StringSpannerSse42`
  (`_mm_cmpistri` with mode 0: unsigned bytes, equal-any,
  least-significant index, implicitly NUL-terminated operands);
* `CsvReader::try_parse`, the goto state machine, as `tpGo`.  The C++
  scans with 16-byte spanner strides guarded by `PREAMBLE` (underrun as
  soon as the position passes the end pointer): a spanner hit inside the
  real bytes is the first target byte at or after the current position,
  and a stride that runs into the 16-byte tail padding past `endp_` is
  followed by a failing `PREAMBLE`, i.e. underrun, whatever the padding
  holds.  `tpGo` therefore advances byte by byte over the valid bytes
  with the fallback target test (a target byte is never 0) and returns
  underrun when the valid bytes run out mid-row, which yields the same
  okay/overflow/underrun result and the same cells as the strided scan;
* `CsvReader::read_row` (the fill/overflow driver) over a stream-cursor
  interface, with the `MappedFileCursor` and the
  `BufferedStreamCursor`/`FdStreamCursor` instances.
-/

/-- Parser configuration: `delimiter_`, `quotechar_`, `escapechar_`
(0 means "none"), as stored by `CsvReader`. -/
structure Config where
  delimiter : Nat
  quotechar : Nat
  escapechar : Nat
  deriving DecidableEq, Repr

/-- The `CsvReader` defaults: `delimiter=','`, `quotechar='"'`, `escapechar=0`. -/
def defCfg : Config := ⟨44, 34, 0⟩

/-- `CsvCell`: `ptr` is the byte offset of the cell body inside the buffer
passed to `try_parse` (`none` models the null pointer stored for an empty
final cell), `size` its length, `escaped` the lazy-decode flag. -/
structure CsvCell where
  ptr : Option Nat
  size : Nat
  escaped : Bool
  deriving DecidableEq, Repr

/-- The raw byte range `[ptr, ptr+size)` a cell designates (empty for the
null pointer). -/
def rawBytes (c : CsvCell) (buf : List Nat) : List Nat :=
  match c.ptr with
  | none => []
  | some k => (buf.drop k).take c.size

/-- The unescaping loop of `CsvCell::as_str`: on a byte equal to
`escapechar` (when nonzero) or to `quotechar`, skip it and copy the byte
after it.  When the skipped byte is the last one, the C++ copies
`s[s.size()]`, which is the NUL terminator of `std::string`, hence the
`[0]`. -/
def unescape (esc q : Nat) : List Nat → List Nat
  | [] => []
  | [c] => if (esc ≠ 0 ∧ c = esc) ∨ c = q then [0] else [c]
  | c :: d :: rest =>
      if (esc ≠ 0 ∧ c = esc) ∨ c = q then d :: unescape esc q rest
      else c :: unescape esc q (d :: rest)

/-- `CsvCell::as_str(escapechar, quotechar)`: the raw bytes, unescaped
when the `escaped` flag is set. -/
def asStr (cfg : Config) (c : CsvCell) (buf : List Nat) : List Nat :=
  if c.escaped then unescape cfg.escapechar cfg.quotechar (rawBytes c buf)
  else rawBytes c buf

/-- Decode a whole row with the parser's configuration. -/
def decodedRow (cfg : Config) (cells : List CsvCell) (buf : List Nat) : List (List Nat) :=
  cells.map (fun c => asStr cfg c buf)

/-! ## The string spanners -/

/-- The 256-entry table of `StringSpannerFallback`: the constructor sets
the four target slots and then clears slot 0 (`charset_[0] = 0`). -/
def mkCharset (c1 c2 c3 c4 : Nat) : Nat → Bool :=
  fun b => decide (b ≠ 0 ∧ (b = c1 ∨ b = c2 ∨ b = c3 ∨ b = c4))

/-- The scan loop of `StringSpannerFallback::operator()`: four table
lookups per iteration with early exit, over a 16-byte window (bytes past
the end of `w` read as 0).  The first argument counts the remaining
do-while iterations — the loop runs `p` over `0, 4, 8, 12` and returns
`p - s = 16` when it exits with no byte matched. -/
def fallbackLoop (ch : Nat → Bool) (w : List Nat) : Nat → Nat → Nat
  | 0, _ => 16
  | n + 1, p =>
      if ch (w.getD p 0) then p
      else if ch (w.getD (p + 1) 0) then p + 1
      else if ch (w.getD (p + 2) 0) then p + 2
      else if ch (w.getD (p + 3) 0) then p + 3
      else fallbackLoop ch w n (p + 4)

/-- `StringSpannerFallback` built from four target bytes and applied to a
16-byte window: four four-byte iterations from offset 0. -/
def fallbackSpan (c1 c2 c3 c4 : Nat) (w : List Nat) : Nat :=
  fallbackLoop (mkCharset c1 c2 c3 c4) w 4 0

/-- The least-significant set index of the `PCMPISTRI` aggregation:
first index `j` (starting at the second argument, for as many positions
as the first argument allows — the valid haystack length) whose byte
belongs to `needle`, else 16.  Haystack positions at or after the first
NUL are invalid and cannot match. -/
def sseFirst (needle : List Nat) (w : List Nat) : Nat → Nat → Nat
  | 0, _ => 16
  | fuel + 1, j => if w.getD j 0 ∈ needle then j else sseFirst needle w fuel (j + 1)

/-- `StringSpannerSse42`: `_mm_cmpistri(v_, load(buf), 0)`.  Both operands
are implicitly NUL-terminated: the needle is the targets up to the first
zero slot, and the valid haystack is the window up to its first NUL. -/
def sse42Span (c1 c2 c3 c4 : Nat) (w : List Nat) : Nat :=
  let needle := List.takeWhile (fun b => b != 0) [c1, c2, c3, c4]
  let hlen := ((w.take 16).takeWhile (fun b => b != 0)).length
  sseFirst needle w hlen 0

example : fallbackSpan 44 0 0 0 [97, 98, 44, 99, 0, 0, 0, 0, 0, 0, 0, 0, 0, 0, 0, 0] = 2 := by
  decide

example : sse42Span 44 0 0 0 [97, 98, 44, 99, 1, 1, 1, 1, 1, 1, 1, 1, 1, 1, 1, 1] = 2 := by
  decide

/-! ## `CsvReader::try_parse` -/

/-- The labels of the goto state machine, with the state they carry:
`cs` is the cell-start offset, `esc` the current cell's escaped flag.
The two `in_escape_or_end_of_…` labels and the zero-length entry hops
(`newline_skip → cell_start`, `cell_start → in_unquoted_cell`,
`in_unquoted_cell → in_escape_or_end_of_unquoted_cell`), which examine
the byte already in hand without advancing `p`, are inlined into the
arm for the byte they examine, so that every recursive call of `tpGo`
consumes exactly one byte. -/
inductive TpState where
  | newlineSkip
  | cellStart
  | inQuoted (cs : Nat) (esc : Bool)
  | escEndQuoted (cs : Nat) (esc : Bool)
  | inUnquoted (cs : Nat) (esc : Bool)
  deriving DecidableEq, Repr

/-- `CsmTryParseReturnType` plus the row data: `okay` carries the cells
and the consumed byte count (`p_ - p`), `underrun` carries the cells
committed so far (`row_.count` entries of `row_.cells`). -/
inductive TryParseResult where
  | okay (cells : List CsvCell) (consumed : Nat)
  | overflow
  | underrun (cells : List CsvCell)
  deriving DecidableEq, Repr

/-- The body of `CsvReader::try_parse`.  `rest` is the not-yet-examined
valid input (`[p, endp_)`), `i` the absolute offset of its head inside
the buffer passed to `try_parse`, `acc` the committed cells
(`row_.cells[0..row_.count)`), `cap` the size of `row_.cells`.
Every label begins with `PREAMBLE` (underrun once the position reaches
the end pointer — the first arm), target tests are the spanner's (a zero
byte is never a target), and `NEXT_CELL` signals overflow when
`row_.count` reaches `row_.cells.size()` after a delimiter commits a
cell.  In the `cell_start` arms the unquoted-cell lookahead is inlined:
a byte that is an unquoted-spanner target there is either the delimiter
(zero-length cell committed) or, the line terminators being handled by
the first test of `cell_start`, the nonzero escape character
(`in_escape_or_end_of_unquoted_cell`'s final branch: mark escaped and
keep scanning the same cell). -/
def tpGo (cfg : Config) (cap : Nat) : TpState → List Nat → Nat → List CsvCell → TryParseResult
  | _, [], _, acc => .underrun acc
  | .newlineSkip, c :: r, i, acc =>
      if c = 13 ∨ c = 10 then tpGo cfg cap .newlineSkip r (i + 1) acc
      else -- fall through to cell_start on the byte in hand (not a terminator)
        if c = cfg.quotechar then tpGo cfg cap (.inQuoted (i + 1) false) r (i + 1) acc
        else if c ≠ 0 ∧ (c = cfg.delimiter ∨ c = 13 ∨ c = 10 ∨ c = cfg.escapechar) then
          if c = cfg.delimiter then
            if (acc ++ [(⟨some i, 0, false⟩ : CsvCell)]).length = cap then .overflow
            else tpGo cfg cap .cellStart r (i + 1) (acc ++ [⟨some i, 0, false⟩])
          else tpGo cfg cap (.inUnquoted i true) r (i + 1) acc
        else tpGo cfg cap (.inUnquoted i false) r (i + 1) acc
  | .cellStart, c :: r, i, acc =>
      if c = 13 ∨ c = 10 then .okay (acc ++ [⟨none, 0, false⟩]) (i + 1)
      else if c = cfg.quotechar then tpGo cfg cap (.inQuoted (i + 1) false) r (i + 1) acc
      else if c ≠ 0 ∧ (c = cfg.delimiter ∨ c = 13 ∨ c = 10 ∨ c = cfg.escapechar) then
        if c = cfg.delimiter then
          if (acc ++ [(⟨some i, 0, false⟩ : CsvCell)]).length = cap then .overflow
          else tpGo cfg cap .cellStart r (i + 1) (acc ++ [⟨some i, 0, false⟩])
        else tpGo cfg cap (.inUnquoted i true) r (i + 1) acc
      else tpGo cfg cap (.inUnquoted i false) r (i + 1) acc
  | .inQuoted cs e, c :: r, i, acc =>
      if c ≠ 0 ∧ (c = cfg.quotechar ∨ c = cfg.escapechar) then
        tpGo cfg cap (.escEndQuoted cs e) r (i + 1) acc
      else tpGo cfg cap (.inQuoted cs e) r (i + 1) acc
  | .escEndQuoted cs e, c :: r, i, acc =>
      if c = cfg.delimiter then
        if (acc ++ [(⟨some cs, i - cs - 1, e⟩ : CsvCell)]).length = cap then .overflow
        else tpGo cfg cap .cellStart r (i + 1) (acc ++ [⟨some cs, i - cs - 1, e⟩])
      else if c = 13 ∨ c = 10 then .okay (acc ++ [⟨some cs, i - cs - 1, e⟩]) (i + 1)
      else tpGo cfg cap (.inQuoted cs true) r (i + 1) acc
  | .inUnquoted cs e, c :: r, i, acc =>
      if c ≠ 0 ∧ (c = cfg.delimiter ∨ c = 13 ∨ c = 10 ∨ c = cfg.escapechar) then
        -- in_escape_or_end_of_unquoted_cell on the byte in hand
        if c = cfg.delimiter then
          if (acc ++ [(⟨some cs, i - cs, e⟩ : CsvCell)]).length = cap then .overflow
          else tpGo cfg cap .cellStart r (i + 1) (acc ++ [⟨some cs, i - cs, e⟩])
        else if c = 13 ∨ c = 10 then .okay (acc ++ [⟨some cs, i - cs, e⟩]) (i + 1)
        else tpGo cfg cap (.inUnquoted cs true) r (i + 1) acc
      else tpGo cfg cap (.inUnquoted cs e) r (i + 1) acc

/-- `CsvReader::try_parse()` on the valid bytes `[p_, endp_)`. -/
def tryParse (cfg : Config) (cap : Nat) (buf : List Nat) : TryParseResult :=
  tpGo cfg cap .newlineSkip buf 0 []

/-- The cells `row_` holds after `try_parse` returns (empty after an
overflow, which is retried before the row is exposed). -/
def resultCells : TryParseResult → List CsvCell
  | .okay cells _ => cells
  | .overflow => []
  | .underrun cells => cells

example : tryParse defCfg 32 [97, 44, 98, 44, 99, 10] =
    .okay [⟨some 0, 1, false⟩, ⟨some 2, 1, false⟩, ⟨some 4, 1, false⟩] 6 := by decide

example : tryParse defCfg 32 [97, 44, 98] = .underrun [⟨some 0, 1, false⟩] := by decide

-- `"a""b",c\n` : first cell escaped, raw `a""b`, decoded `a"b`.
example : tryParse defCfg 32 [34, 97, 34, 34, 98, 34, 44, 99, 10] =
    .okay [⟨some 1, 4, true⟩, ⟨some 7, 1, false⟩] 9 := by decide

example : decodedRow defCfg [⟨some 1, 4, true⟩] [34, 97, 34, 34, 98, 34, 44, 99, 10] =
    [[97, 34, 98]] := by decide

-- `a,,b\n` and a trailing empty final cell `a,\n` (null pointer).
example : tryParse defCfg 32 [97, 44, 44, 98, 10] =
    .okay [⟨some 0, 1, false⟩, ⟨some 2, 0, false⟩, ⟨some 3, 1, false⟩] 5 := by decide

example : tryParse defCfg 32 [97, 44, 10] =
    .okay [⟨some 0, 1, false⟩, ⟨none, 0, false⟩] 3 := by decide

-- capacity 2 overflows on `a,b,c\n` (third cell starts), capacity 3 does not.
example : tryParse defCfg 2 [97, 44, 98, 44, 99, 10] = .overflow := by decide

example : tryParse defCfg 3 [97, 44, 98, 44, 99, 10] =
    .okay [⟨some 0, 1, false⟩, ⟨some 2, 1, false⟩, ⟨some 4, 1, false⟩] 6 := by decide

/-! ## Stream cursors -/

/-- The `StreamCursor` interface used by `CsvReader`: `buf()`/`size()`
are merged into the list of valid bytes, `consume` advances the logical
start, `fill` tries to obtain more bytes and returns whether to retry. -/
structure StreamOps (σ : Type) where
  buf : σ → List Nat
  consume : σ → Nat → σ
  fill : σ → Bool × σ

/-- `MappedFileCursor`: the whole file (`data`) is visible, `p_` is
`data + pos`. -/
structure MappedFileCursor where
  data : List Nat
  pos : Nat
  deriving DecidableEq, Repr

/-- `MappedFileCursor::buf()/size()`: the bytes `[p_, endp_)`. -/
def MappedFileCursor.mbuf (s : MappedFileCursor) : List Nat :=
  s.data.drop s.pos

/-- `MappedFileCursor::consume`: `p_ += min(n, endp_ - p_)`. -/
def MappedFileCursor.mconsume (s : MappedFileCursor) (n : Nat) : MappedFileCursor :=
  ⟨s.data, s.pos + min n (s.data.length - s.pos)⟩

/-- The mapped-file cursor: `fill()` always returns false and changes
nothing. -/
def mappedOps : StreamOps MappedFileCursor :=
  ⟨MappedFileCursor.mbuf, MappedFileCursor.mconsume, fun s => (false, s)⟩

/-- `BufferedStreamCursor` (with the `FdStreamCursor` read source
modelled by `pending`): `vec` is the allocation `vec_` (its length is
`vec_.size()`), and each `readmore()` takes the head of `pending` —
`none` models a read error (−1), `some chunk` data arriving on the
descriptor, of which at most the remaining buffer capacity is taken (the
rest stays pending).  An empty `pending` list models a descriptor at
end-of-input: every further `read` returns 0. -/
structure BufferedStreamCursor where
  vec : List Nat
  readPos : Nat
  writePos : Nat
  pending : List (Option (List Nat))
  deriving DecidableEq, Repr

/-- `BufferedStreamCursor()`: a fresh cursor with a 131072-byte zeroed
buffer. -/
def mkFdCursor (pending : List (Option (List Nat))) : BufferedStreamCursor :=
  ⟨List.replicate 131072 0, 0, 0, pending⟩

/-- `size()` = `write_pos_ - read_pos_`. -/
def BufferedStreamCursor.bsize (s : BufferedStreamCursor) : Nat :=
  s.writePos - s.readPos

/-- `buf()` = `&vec_[read_pos_]`, valid for `size()` bytes. -/
def BufferedStreamCursor.bbuf (s : BufferedStreamCursor) : List Nat :=
  (s.vec.drop s.readPos).take (s.writePos - s.readPos)

/-- `consume(n)`: `read_pos_ += min(n, write_pos_ - read_pos_)`. -/
def BufferedStreamCursor.bconsume (s : BufferedStreamCursor) (n : Nat) : BufferedStreamCursor :=
  { s with readPos := s.readPos + min n (s.writePos - s.readPos) }

/-- `BufferedStreamCursor::ensure(capacity)`: grow `vec_` to
`16 + (vec_.size() + capacity)` when less than `capacity` bytes remain
past `write_pos_` (`std::vector::resize` zero-fills). -/
def BufferedStreamCursor.ensure (s : BufferedStreamCursor) (capacity : Nat) : BufferedStreamCursor :=
  if s.vec.length - s.writePos < capacity then
    { s with vec := s.vec ++ List.replicate (16 + capacity) 0 }
  else s

/-- `FdStreamCursor::readmore()`: `read(fd_, &vec_[write_pos_],
vec_.size() - write_pos_)`.  Returns the byte count (`none` for −1) and
the mutated cursor. -/
def BufferedStreamCursor.readmore (s : BufferedStreamCursor) : Option Nat × BufferedStreamCursor :=
  match s.pending with
  | [] => (some 0, s)
  | none :: rest => (none, { s with pending := rest })
  | some chunk :: rest =>
      let k := min chunk.length (s.vec.length - s.writePos)
      (some k,
       { s with
         vec := s.vec.take s.writePos ++ chunk.take k ++ s.vec.drop (s.writePos + k),
         pending := if k < chunk.length then some (chunk.drop k) :: rest else rest })

/-- `BufferedStreamCursor::fill()`: left-shift unread bytes to offset 0,
grow when no headroom remains, read once, and return `write_pos_ > 0`
(false on a read error). -/
def BufferedStreamCursor.bfill (s : BufferedStreamCursor) : Bool × BufferedStreamCursor :=
  let s1 :=
    if s.readPos ≠ 0 then
      let n := s.writePos - s.readPos
      { s with vec := (s.vec.drop s.readPos).take n ++ s.vec.drop n,
               writePos := n, readPos := 0 }
    else s
  let s2 := if s1.writePos = s1.vec.length then s1.ensure (s1.vec.length / 2) else s1
  match s2.readmore with
  | (none, s3) => (false, s3)
  | (some rc, s3) => (decide (0 < s3.writePos + rc), { s3 with writePos := s3.writePos + rc })

/-- The buffered cursor as a `StreamOps` instance. -/
def bufferedOps : StreamOps BufferedStreamCursor :=
  ⟨BufferedStreamCursor.bbuf, BufferedStreamCursor.bconsume, BufferedStreamCursor.bfill⟩

/-! ## `CsvReader::read_row` -/

/-- The outcome of one `read_row()` call: its boolean result, the row
(`row_.cells[0..row_.count)`), the final `row_.cells.size()` (overflow
doubles it), and the stream cursor afterwards. -/
structure RowResult (σ : Type) where
  ok : Bool
  cells : List CsvCell
  cap : Nat
  cur : σ
  deriving DecidableEq, Repr

/-- `CsvReader::read_row()`.  One fuel unit is spent per `do`-loop
iteration and per overflow retry (`read_row` restarts itself after
doubling `row_.cells`); `none` means the fuel ran out, which models
non-termination when it holds for every fuel.  On parse success the
cursor is consumed by `p_ - p`; when `fill()` fails with committed cells
and `yield_incomplete_row_` set, the whole window (`endp_ - p` bytes) is
consumed and the committed cells are the row. -/
def readRow (ops : StreamOps σ) (cfg : Config) :
    Nat → Nat → Bool → σ → Option (RowResult σ)
  | 0, _, _, _ => none
  | fuel + 1, cap, yi, s =>
      let b := ops.buf s
      match tryParse cfg cap b with
      | .okay cells n => some ⟨true, cells, cap, ops.consume s n⟩
      | .overflow => readRow ops cfg fuel (2 * cap) yi s
      | .underrun acc =>
          let f := ops.fill s
          if f.1 then readRow ops cfg fuel cap yi f.2
          else if acc ≠ [] ∧ yi then some ⟨true, acc, cap, ops.consume f.2 b.length⟩
          else some ⟨false, acc, cap, f.2⟩

/-- Successive `read_row()` calls on a mapped-file cursor until the first
false, collecting each row's cells. -/
def readAll (cfg : Config) : Nat → Nat → Bool → MappedFileCursor → Option (List (List CsvCell))
  | 0, _, _, _ => none
  | fuel + 1, cap, yi, s =>
      match readRow mappedOps cfg (fuel + 1) cap yi s with
      | none => none
      | some r =>
          if r.ok then (readAll cfg fuel r.cap yi r.cur).map (r.cells :: ·)
          else some []

example : readRow mappedOps defCfg 2 32 true ⟨[97, 44, 98], 0⟩ =
    some ⟨true, [⟨some 0, 1, false⟩], 32, ⟨[97, 44, 98], 3⟩⟩ := by decide

example : readAll defCfg 4 32 false ⟨[97, 10, 98, 10], 0⟩ =
    some [[⟨some 0, 1, false⟩], [⟨some 0, 1, false⟩]] := by decide

/-! ## The row-counting reference machine (for the row-count property)

`mGo` is `try_parse` stripped of cell bookkeeping: it walks one row and
reports either `rowEnd k` — the row's terminator is consumed after `k`
bytes — or `exhaust hasCells` — the input ended mid-row, `hasCells`
telling whether any cell of the row had been committed.  `specRowCount`
iterates it and adds the final incomplete row when configured to. -/

/-- Machine states: `newline_skip`, `cell_start`, inside a quoted cell,
after a quoted-cell break byte, inside an unquoted cell. -/
inductive MSt where
  | skip | start | q | qe | u
  deriving DecidableEq, Repr

/-- Row-walk outcome: terminator consumed after `k` bytes, or input
exhausted mid-row. -/
inductive MRes where
  | rowEnd (k : Nat)
  | exhaust (hasCells : Bool)
  deriving DecidableEq, Repr

/-- Add one consumed byte below a row-walk outcome. -/
def MRes.bump : MRes → MRes
  | .rowEnd k => .rowEnd (k + 1)
  | .exhaust b => .exhaust b

/-- The cell-free row walk, transition for transition the same as
`tpGo`. -/
def mGo (cfg : Config) : MSt → Bool → List Nat → MRes
  | _, hc, [] => .exhaust hc
  | .skip, hc, c :: r =>
      if c = 13 ∨ c = 10 then (mGo cfg .skip hc r).bump
      else
        if c = cfg.quotechar then (mGo cfg .q hc r).bump
        else if c ≠ 0 ∧ (c = cfg.delimiter ∨ c = 13 ∨ c = 10 ∨ c = cfg.escapechar) then
          if c = cfg.delimiter then (mGo cfg .start true r).bump
          else (mGo cfg .u hc r).bump
        else (mGo cfg .u hc r).bump
  | .start, hc, c :: r =>
      if c = 13 ∨ c = 10 then .rowEnd 1
      else if c = cfg.quotechar then (mGo cfg .q hc r).bump
      else if c ≠ 0 ∧ (c = cfg.delimiter ∨ c = 13 ∨ c = 10 ∨ c = cfg.escapechar) then
        if c = cfg.delimiter then (mGo cfg .start true r).bump
        else (mGo cfg .u hc r).bump
      else (mGo cfg .u hc r).bump
  | .q, hc, c :: r =>
      if c ≠ 0 ∧ (c = cfg.quotechar ∨ c = cfg.escapechar) then (mGo cfg .qe hc r).bump
      else (mGo cfg .q hc r).bump
  | .qe, hc, c :: r =>
      if c = cfg.delimiter then (mGo cfg .start true r).bump
      else if c = 13 ∨ c = 10 then .rowEnd 1
      else (mGo cfg .q hc r).bump
  | .u, hc, c :: r =>
      if c ≠ 0 ∧ (c = cfg.delimiter ∨ c = 13 ∨ c = 10 ∨ c = cfg.escapechar) then
        if c = cfg.delimiter then (mGo cfg .start true r).bump
        else if c = 13 ∨ c = 10 then .rowEnd 1
        else (mGo cfg .u hc r).bump
      else (mGo cfg .u hc r).bump

/-- One whole row walked from the `newline_skip` entry with no committed
cell yet. -/
def mRowOf (cfg : Config) (buf : List Nat) : MRes :=
  mGo cfg .skip false buf

/-- Iterated row walks with explicit fuel: each completed row consumes
at least one byte, so `buf.length` units of fuel always suffice. -/
def specCountGo (cfg : Config) (yi : Bool) : Nat → List Nat → Nat
  | 0, _ => 0
  | fuel + 1, buf =>
      match mRowOf cfg buf with
      | .rowEnd k => specCountGo cfg yi fuel (buf.drop k) + 1
      | .exhaust hc => if yi ∧ hc = true then 1 else 0

/-- The number of rows emitted from a byte list, per the amended
row-count statement: one per completed row walk, plus one when the input
ends mid-row with a committed cell and `yield_incomplete_row` is set. -/
def specRowCount (cfg : Config) (yi : Bool) (buf : List Nat) : Nat :=
  specCountGo cfg yi buf.length buf

/-- The count asserted by the spec sentence under scrutiny, stated from
its words: line-terminator bytes that are "not inside a quoted cell",
quoting being tracked by toggling at each `quotechar` outside/inside. -/
def claimTerminatorCount (cfg : Config) (inQuote : Bool) : List Nat → Nat
  | [] => 0
  | c :: r =>
      (if ¬inQuote ∧ (c = 13 ∨ c = 10) then 1 else 0) +
        claimTerminatorCount cfg (if c = cfg.quotechar then !inQuote else inQuote) r

example : specRowCount defCfg false [97, 10, 98, 10] = 2 := by decide

example : specRowCount defCfg false [10] = 0 := by decide

example : claimTerminatorCount defCfg false [10] = 1 := by decide

/-- The cell-free image of a `try_parse` label in the row-counting
machine. -/
def projSt : TpState → MSt
  | .newlineSkip => .skip
  | .cellStart => .start
  | .inQuoted _ _ => .q
  | .escEndQuoted _ _ => .qe
  | .inUnquoted _ _ => .u

/-- The simulation relation between a `try_parse` outcome entered at
absolute offset `i` and the row-counting walk of the same remaining
bytes: the machine finds the terminator exactly where the successful
parse ends, and exhausts with a committed cell exactly when the
interrupted parse holds one. -/
def simOk (i : Nat) : TryParseResult → MRes → Prop
  | .okay _ n, m => i < n ∧ m = .rowEnd (n - i)
  | .overflow, _ => True
  | .underrun a, m => m = .exhaust (!a.isEmpty)

/-! ## Invariants carried through `try_parse` -/

/-- A byte the `as_str` unescaping loop removes: nonzero and equal to
the configured escape character (when one is configured) or to the quote
character. -/
def escMatchByte (cfg : Config) (b : Nat) : Prop :=
  b ≠ 0 ∧ ((cfg.escapechar ≠ 0 ∧ b = cfg.escapechar) ∨ b = cfg.quotechar)

/-- A target of the quoted-cell spanner `{quotechar, escapechar}` (zero
never matches). -/
def quotedTargetByte (cfg : Config) (b : Nat) : Prop :=
  b ≠ 0 ∧ (b = cfg.quotechar ∨ b = cfg.escapechar)

/-- What holds of every cell `try_parse` commits: a set escaped flag is
justified by a removable byte in the raw range, a non-null pointer stays
inside the buffer, and the null pointer only occurs as `(null, 0)` with
a clear flag. -/
def cellInv (cfg : Config) (buf : List Nat) (c : CsvCell) : Prop :=
  (c.escaped = true → ∃ b ∈ rawBytes c buf, escMatchByte cfg b) ∧
  (∀ k, c.ptr = some k → k + c.size ≤ buf.length) ∧
  (c.ptr = none → c.size = 0 ∧ c.escaped = false)

/-- The in-flight invariant of each `try_parse` label at offset `i`. -/
def stInv (cfg : Config) (buf : List Nat) : TpState → Nat → Prop
  | .newlineSkip, _ => True
  | .cellStart, _ => True
  | .inQuoted cs e, i =>
      cs ≤ i ∧ (e = true → ∃ m, cs ≤ m ∧ m + 2 ≤ i ∧ escMatchByte cfg (buf.getD m 0))
  | .escEndQuoted cs e, i =>
      cs + 1 ≤ i ∧ 1 ≤ i ∧ i - 1 < buf.length ∧ quotedTargetByte cfg (buf.getD (i - 1) 0) ∧
        (e = true → ∃ m, cs ≤ m ∧ m + 2 ≤ i ∧ escMatchByte cfg (buf.getD m 0))
  | .inUnquoted cs e, i =>
      cs ≤ i ∧ (e = true → ∃ m, cs ≤ m ∧ m + 1 ≤ i ∧ escMatchByte cfg (buf.getD m 0))

/-- What `try_parse`'s results guarantee: committed cells satisfy
`cellInv`, a successful parse consumes between 1 byte and the window,
every non-final cell has a non-null pointer, and mid-row exhaustion
leaves only delimiter-committed (non-null) cells. -/
def tpRes (cfg : Config) (buf : List Nat) : TryParseResult → Prop
  | .okay cells n =>
      (∀ c ∈ cells, cellInv cfg buf c) ∧ 1 ≤ n ∧ n ≤ buf.length ∧
        (∀ c ∈ cells.dropLast, c.ptr ≠ none)
  | .overflow => True
  | .underrun a => ∀ c ∈ a, cellInv cfg buf c ∧ c.ptr ≠ none

/-! # Theorems -/

/-! ## List bookkeeping -/

theorem drop_cons_lt {l : List Nat} {i c : Nat} {r : List Nat} (h : l.drop i = c :: r) :
    i < l.length := by
  by_contra hh
  push_neg at hh
  rw [List.drop_eq_nil_of_le hh] at h
  exact List.noConfusion h

theorem drop_cons_head {l : List Nat} {i c : Nat} {r : List Nat} (h : l.drop i = c :: r) :
    l.getD i 0 = c := by
  have h0 : l[i]? = some c := by
    have := List.getElem?_drop l i 0
    simp [h] at this
    simpa using this.symm
  simp [List.getD_eq_getElem?_getD, h0]

theorem drop_cons_tail {l : List Nat} {i c : Nat} {r : List Nat} (h : l.drop i = c :: r) :
    l.drop (i + 1) = r := by
  have := List.tail_drop l i
  rw [h] at this
  simpa using this.symm

theorem getD_mem_slice {l : List Nat} {cs m sz : Nat} (h1 : cs ≤ m) (h2 : m < cs + sz)
    (h3 : m < l.length) : l.getD m 0 ∈ (l.drop cs).take sz := by
  have h4 : ((l.drop cs).take sz)[m - cs]? = some l[m] := by
    rw [List.getElem?_take, if_pos (by omega : m - cs < sz), List.getElem?_drop,
      (by omega : cs + (m - cs) = m), List.getElem?_eq_getElem h3]
  have h5 : l.getD m 0 = l[m] := by
    simp [List.getD_eq_getElem?_getD, List.getElem?_eq_getElem h3]
  rw [h5]
  exact List.getElem?_mem h4

/-! ## The `try_parse` invariant -/

/-- The central invariant of `CsvReader::try_parse`: starting at a
reachable configuration, the machine only produces results satisfying
`tpRes`. -/
theorem tpGo_main (cfg : Config) (cap : Nat) (buf : List Nat) :
    ∀ rest st i acc, rest = buf.drop i → i ≤ buf.length →
      stInv cfg buf st i → (∀ c ∈ acc, cellInv cfg buf c ∧ c.ptr ≠ none) →
      tpRes cfg buf (tpGo cfg cap st rest i acc) := by
  intro rest
  induction rest with
  | nil =>
      intro st i acc _ _ _ hacc
      cases st <;> simp only [tpGo, tpRes] <;> exact hacc
  | cons c r IH =>
      intro st i acc hrest hi hst hacc
      have hd : buf.drop i = c :: r := hrest.symm
      have hlt : i < buf.length := drop_cons_lt hd
      have hhead : buf.getD i 0 = c := drop_cons_head hd
      have htail : buf.drop (i + 1) = r := drop_cons_tail hd
      -- the invariant of the cell committed when a delimiter is met with the
      -- current cell spanning `[cs, i - adj)`
      have hnewcell : ∀ cs adj e, cs + adj ≤ i →
          (e = true → ∃ m, cs ≤ m ∧ m + adj < i ∧ escMatchByte cfg (buf.getD m 0)) →
          cellInv cfg buf ⟨some cs, i - cs - adj, e⟩ := by
        intro cs adj e hcsi hw
        refine ⟨?_, ?_, ?_⟩
        · intro he
          obtain ⟨m, hm1, hm2, hm3⟩ := hw he
          refine ⟨buf.getD m 0, ?_, hm3⟩
          show buf.getD m 0 ∈ (buf.drop cs).take (i - cs - adj)
          exact getD_mem_slice hm1 (by omega) (by omega)
        · intro k hk
          have hck : cs = k := Option.some.inj hk
          show k + (i - cs - adj) ≤ buf.length
          omega
        · intro hn; simp at hn
      have haccext : ∀ (x : CsvCell), cellInv cfg buf x → x.ptr ≠ none →
          ∀ y ∈ acc ++ [x], cellInv cfg buf y ∧ y.ptr ≠ none := by
        intro x hx1 hx2 y hy
        rcases List.mem_append.mp hy with hy | hy
        · exact hacc y hy
        · simp only [List.mem_singleton] at hy
          subst hy; exact ⟨hx1, hx2⟩
      have hokay : ∀ (x : CsvCell), cellInv cfg buf x →
          tpRes cfg buf (.okay (acc ++ [x]) (i + 1)) := by
        intro x hx
        refine ⟨?_, by omega, by omega, ?_⟩
        · intro y hy
          rcases List.mem_append.mp hy with hy | hy
          · exact (hacc y hy).1
          · simp only [List.mem_singleton] at hy
            subst hy; exact hx
        · rw [List.dropLast_concat]
          exact fun y hy => (hacc y hy).2
      have hescbyte : ∀ hc0 : c ≠ 0, ¬(c = 13 ∨ c = 10) → ¬c = cfg.delimiter →
          (c = cfg.delimiter ∨ c = 13 ∨ c = 10 ∨ c = cfg.escapechar) →
          escMatchByte cfg (buf.getD i 0) := by
        intro hc0 hterm hdelim hcs
        rw [hhead]
        have hcesc : c = cfg.escapechar := by
          rcases hcs with h | h | h | h
          · exact absurd h hdelim
          · exact absurd (Or.inl h) hterm
          · exact absurd (Or.inr h) hterm
          · exact h
        exact ⟨hc0, Or.inl ⟨by rw [← hcesc]; exact hc0, hcesc⟩⟩
      cases st with
      | newlineSkip =>
          simp only [tpGo]
          by_cases h1 : c = 13 ∨ c = 10
          · rw [if_pos h1]
            exact IH _ _ _ htail.symm (by omega) trivial hacc
          · rw [if_neg h1]
            by_cases h2 : c = cfg.quotechar
            · rw [if_pos h2]
              exact IH _ _ _ htail.symm (by omega) ⟨by omega, by simp⟩ hacc
            · rw [if_neg h2]
              by_cases h3 : c ≠ 0 ∧ (c = cfg.delimiter ∨ c = 13 ∨ c = 10 ∨ c = cfg.escapechar)
              · rw [if_pos h3]
                by_cases h4 : c = cfg.delimiter
                · rw [if_pos h4]
                  by_cases h5 : (acc ++ [(⟨some i, 0, false⟩ : CsvCell)]).length = cap
                  · rw [if_pos h5]; trivial
                  · rw [if_neg h5]
                    refine IH _ _ _ htail.symm (by omega) trivial
                      (haccext _ ?_ (by simp))
                    have := hnewcell i 0 false (by omega) (by simp)
                    simpa using this
                · rw [if_neg h4]
                  exact IH _ _ _ htail.symm (by omega)
                    ⟨by omega, fun _ => ⟨i, le_refl _, by omega,
                      hescbyte h3.1 h1 h4 h3.2⟩⟩ hacc
              · rw [if_neg h3]
                exact IH _ _ _ htail.symm (by omega) ⟨by omega, by simp⟩ hacc
      | cellStart =>
          simp only [tpGo]
          by_cases h1 : c = 13 ∨ c = 10
          · rw [if_pos h1]
            refine hokay _ ⟨?_, ?_, ?_⟩
            · intro he; simp at he
            · intro k hk; simp at hk
            · intro _; exact ⟨rfl, rfl⟩
          · rw [if_neg h1]
            by_cases h2 : c = cfg.quotechar
            · rw [if_pos h2]
              exact IH _ _ _ htail.symm (by omega) ⟨by omega, by simp⟩ hacc
            · rw [if_neg h2]
              by_cases h3 : c ≠ 0 ∧ (c = cfg.delimiter ∨ c = 13 ∨ c = 10 ∨ c = cfg.escapechar)
              · rw [if_pos h3]
                by_cases h4 : c = cfg.delimiter
                · rw [if_pos h4]
                  by_cases h5 : (acc ++ [(⟨some i, 0, false⟩ : CsvCell)]).length = cap
                  · rw [if_pos h5]; trivial
                  · rw [if_neg h5]
                    refine IH _ _ _ htail.symm (by omega) trivial
                      (haccext _ ?_ (by simp))
                    have := hnewcell i 0 false (by omega) (by simp)
                    simpa using this
                · rw [if_neg h4]
                  exact IH _ _ _ htail.symm (by omega)
                    ⟨by omega, fun _ => ⟨i, le_refl _, by omega,
                      hescbyte h3.1 h1 h4 h3.2⟩⟩ hacc
              · rw [if_neg h3]
                exact IH _ _ _ htail.symm (by omega) ⟨by omega, by simp⟩ hacc
      | inQuoted cs e =>
          obtain ⟨hcs, hw⟩ := hst
          simp only [tpGo]
          by_cases h1 : c ≠ 0 ∧ (c = cfg.quotechar ∨ c = cfg.escapechar)
          · rw [if_pos h1]
            refine IH _ _ _ htail.symm (by omega)
              ⟨by omega, by omega, by simpa using hlt, ?_, ?_⟩ hacc
            · show quotedTargetByte cfg (buf.getD (i + 1 - 1) 0)
              rw [Nat.add_sub_cancel, hhead]
              exact h1
            · intro he
              obtain ⟨m, hm1, hm2, hm3⟩ := hw he
              exact ⟨m, hm1, by omega, hm3⟩
          · rw [if_neg h1]
            refine IH _ _ _ htail.symm (by omega) ⟨by omega, ?_⟩ hacc
            intro he
            obtain ⟨m, hm1, hm2, hm3⟩ := hw he
            exact ⟨m, hm1, by omega, hm3⟩
      | escEndQuoted cs e =>
          obtain ⟨hcs, hi1, hi2, hq, hw⟩ := hst
          have hw' : e = true → ∃ m, cs ≤ m ∧ m + 1 < i ∧ escMatchByte cfg (buf.getD m 0) :=
            fun he => (hw he).imp fun m hm => ⟨hm.1, by have := hm.2.1; omega, hm.2.2⟩
          simp only [tpGo]
          by_cases h1 : c = cfg.delimiter
          · rw [if_pos h1]
            by_cases h5 : (acc ++ [(⟨some cs, i - cs - 1, e⟩ : CsvCell)]).length = cap
            · rw [if_pos h5]; trivial
            · rw [if_neg h5]
              exact IH _ _ _ htail.symm (by omega) trivial
                (haccext _ (hnewcell cs 1 e (by omega) hw') (by simp))
          · rw [if_neg h1]
            by_cases h2 : c = 13 ∨ c = 10
            · rw [if_pos h2]
              exact hokay _ (hnewcell cs 1 e (by omega) hw')
            · rw [if_neg h2]
              refine IH _ _ _ htail.symm (by omega)
                ⟨by omega, fun _ => ⟨i - 1, by omega, by omega, ?_⟩⟩ hacc
              obtain ⟨hb0, hbor⟩ := hq
              rcases hbor with hb | hb
              · exact ⟨hb0, Or.inr hb⟩
              · exact ⟨hb0, Or.inl ⟨by rw [← hb]; exact hb0, hb⟩⟩
      | inUnquoted cs e =>
          obtain ⟨hcs, hw⟩ := hst
          have hw' : e = true → ∃ m, cs ≤ m ∧ m + 0 < i ∧ escMatchByte cfg (buf.getD m 0) :=
            fun he => (hw he).imp fun m hm => ⟨hm.1, by have := hm.2.1; omega, hm.2.2⟩
          simp only [tpGo]
          by_cases h1 : c ≠ 0 ∧ (c = cfg.delimiter ∨ c = 13 ∨ c = 10 ∨ c = cfg.escapechar)
          · rw [if_pos h1]
            by_cases h4 : c = cfg.delimiter
            · rw [if_pos h4]
              by_cases h5 : (acc ++ [(⟨some cs, i - cs, e⟩ : CsvCell)]).length = cap
              · rw [if_pos h5]; trivial
              · rw [if_neg h5]
                refine IH _ _ _ htail.symm (by omega) trivial
                  (haccext _ ?_ (by simp))
                have := hnewcell cs 0 e (by omega) hw'
                simpa using this
            · rw [if_neg h4]
              by_cases h2 : c = 13 ∨ c = 10
              · rw [if_pos h2]
                refine hokay _ ?_
                have := hnewcell cs 0 e (by omega) hw'
                simpa using this
              · rw [if_neg h2]
                exact IH _ _ _ htail.symm (by omega)
                  ⟨by omega, fun _ => ⟨i, hcs, by omega, hescbyte h1.1 h2 h4 h1.2⟩⟩ hacc
          · rw [if_neg h1]
            refine IH _ _ _ htail.symm (by omega) ⟨by omega, ?_⟩ hacc
            intro he
            obtain ⟨m, hm1, hm2, hm3⟩ := hw he
            exact ⟨m, hm1, by omega, hm3⟩

/-! ## Unescaping -/

theorem unescape_length_le (esc q : Nat) : ∀ l, (unescape esc q l).length ≤ l.length := by
  intro l
  induction l using unescape.induct esc q with
  | case1 => simp [unescape]
  | case2 c h => simp [unescape, h]
  | case3 c h => simp [unescape, h]
  | case4 c d r h ih =>
      simp only [unescape]
      rw [if_pos h]
      simp only [List.length_cons]
      omega
  | case5 c d r h ih =>
      simp only [unescape]
      rw [if_neg h]
      simp only [List.length_cons] at ih ⊢
      omega

/-- When the raw bytes contain a nonzero byte the unescaping loop
removes, the decoded string differs from the raw bytes. -/
theorem unescape_ne (esc q : Nat) :
    ∀ l, (∃ b ∈ l, b ≠ 0 ∧ ((esc ≠ 0 ∧ b = esc) ∨ b = q)) → unescape esc q l ≠ l := by
  intro l
  induction l using unescape.induct esc q with
  | case1 => rintro ⟨b, hb, _⟩ _; simp at hb
  | case2 c h =>
      rintro ⟨b, hb, hb0, hbm⟩ heq
      simp only [List.mem_singleton] at hb
      subst hb
      simp only [unescape] at heq
      rw [if_pos h] at heq
      injection heq with h1 _
      exact hb0 h1.symm
  | case3 c h =>
      rintro ⟨b, hb, hb0, hbm⟩ _
      simp only [List.mem_singleton] at hb
      subst hb
      exact h hbm
  | case4 c d r h ih =>
      rintro ⟨b, hb, hb0, hbm⟩ heq
      have hle := unescape_length_le esc q r
      simp only [unescape] at heq
      rw [if_pos h] at heq
      have hlen := congrArg List.length heq
      simp only [List.length_cons] at hlen
      omega
  | case5 c d r h ih =>
      rintro ⟨b, hb, hb0, hbm⟩ heq
      simp only [unescape] at heq
      rw [if_neg h] at heq
      injection heq with _ htl
      rcases List.mem_cons.mp hb with hb | hb
      · subst hb; exact h hbm
      · exact ih ⟨b, hb, hb0, hbm⟩ htl

/-- `tpRes` holds of every `try_parse` run. -/
theorem tryParse_res (cfg : Config) (cap : Nat) (buf : List Nat) :
    tpRes cfg buf (tryParse cfg cap buf) := by
  rw [tryParse]
  exact tpGo_main cfg cap buf buf .newlineSkip 0 [] (by simp) (by simp) trivial (by simp)

/-- Every cell a `try_parse` run exposes (of a parsed or of a partial
row) satisfies `cellInv`. -/
theorem tryParse_cellInv (cfg : Config) (cap : Nat) (buf : List Nat)
    (c : CsvCell) (hc : c ∈ resultCells (tryParse cfg cap buf)) : cellInv cfg buf c := by
  have hmain := tryParse_res cfg cap buf
  rcases hres : tryParse cfg cap buf with ⟨cells, n⟩ | _ | a
  · rw [hres] at hmain hc
    exact hmain.1 c (by simpa [resultCells] using hc)
  · rw [hres] at hc; simp [resultCells] at hc
  · rw [hres] at hmain hc
    exact (hmain c (by simpa [resultCells] using hc)).1

/-- **C5.** For every parsed cell, the `escaped` flag is true iff the
cell's decoded string (`as_str` called with the parser's `escapechar`
and `quotechar`) differs from the cell's raw bytes. -/
theorem c5_escaped_iff_decode_differs (cfg : Config) (cap : Nat) (buf : List Nat)
    (c : CsvCell) (hc : c ∈ resultCells (tryParse cfg cap buf)) :
    c.escaped = true ↔ asStr cfg c buf ≠ rawBytes c buf := by
  have hcell := tryParse_cellInv cfg cap buf c hc
  constructor
  · intro he
    obtain ⟨b, hbmem, hbm⟩ := hcell.1 he
    simp only [asStr, he, if_true]
    exact unescape_ne cfg.escapechar cfg.quotechar (rawBytes c buf) ⟨b, hbmem, hbm⟩
  · intro hne
    cases hesc : c.escaped with
    | false => exact absurd (by simp [asStr, hesc]) hne
    | true => rfl

/-- Witness for C5 at `"a""b",c\n`: the first cell is escaped, its raw
bytes are `a""b` and its decoded string `a"b`. -/
theorem c5_escaped_iff_decode_differs_witness :
    (⟨some 1, 4, true⟩ : CsvCell) ∈
        resultCells (tryParse defCfg 32 [34, 97, 34, 34, 98, 34, 44, 99, 10]) ∧
      ((⟨some 1, 4, true⟩ : CsvCell).escaped = true ↔
        asStr defCfg ⟨some 1, 4, true⟩ [34, 97, 34, 34, 98, 34, 44, 99, 10] ≠
          rawBytes ⟨some 1, 4, true⟩ [34, 97, 34, 34, 98, 34, 44, 99, 10]) :=
  ⟨by decide, c5_escaped_iff_decode_differs defCfg 32 _ _ (by decide)⟩

/-- **C10.** In a successfully parsed row, every non-final cell has a
non-null pointer into the buffer; a null pointer only occurs as the
final cell with size 0 (the empty final cell committed when a line
terminator is met at `cell_start`), and every non-null cell points at a
range inside the buffer. -/
theorem c10_empty_cell_pointers (cfg : Config) (cap : Nat) (buf : List Nat)
    (cells : List CsvCell) (n : Nat) (h : tryParse cfg cap buf = .okay cells n) :
    (∀ c ∈ cells.dropLast, c.ptr ≠ none) ∧
    (∀ c ∈ cells, c.ptr = none → c.size = 0 ∧ c.escaped = false) ∧
    (∀ c ∈ cells, ∀ k, c.ptr = some k → k + c.size ≤ buf.length) := by
  have hmain := tryParse_res cfg cap buf
  rw [h] at hmain
  obtain ⟨hinv, _, _, hlast⟩ := hmain
  exact ⟨hlast, fun c hc => (hinv c hc).2.2, fun c hc => (hinv c hc).2.1⟩

/-- Witness for C10 at `a,\n`: the trailing empty cell is `(null, 0)`,
the cell `a` in non-final position has a non-null pointer. -/
theorem c10_empty_cell_pointers_witness :
    tryParse defCfg 32 [97, 44, 10] = .okay [⟨some 0, 1, false⟩, ⟨none, 0, false⟩] 3 ∧
      ((∀ c ∈ ([⟨some 0, 1, false⟩, ⟨none, 0, false⟩] : List CsvCell).dropLast, c.ptr ≠ none) ∧
       (∀ c ∈ ([⟨some 0, 1, false⟩, ⟨none, 0, false⟩] : List CsvCell),
          c.ptr = none → c.size = 0 ∧ c.escaped = false) ∧
       (∀ c ∈ ([⟨some 0, 1, false⟩, ⟨none, 0, false⟩] : List CsvCell),
          ∀ k, c.ptr = some k → k + c.size ≤ ([97, 44, 10] : List Nat).length)) :=
  ⟨by decide, c10_empty_cell_pointers defCfg 32 [97, 44, 10]
    [⟨some 0, 1, false⟩, ⟨none, 0, false⟩] 3 (by decide)⟩

/-! ## `read_row` over the mapped-file cursor -/

/-- **C8.** Frame conditions of `read_row` on a mapped cursor: the data
never changes; overflow doubles the capacity (the final capacity is
`2^k·cap` after `k` overflow retries, each of which re-parsed the same
window at the unchanged cursor position); when the call returns false
the cursor is exactly where it started (underrun never consumed); when
it returns true the cursor advanced exactly once, by the consumed byte
count of the successful parse (or by the whole window for a yielded
incomplete row). -/
theorem c8_cursor_frame (cfg : Config) :
    ∀ fuel cap yi (s : MappedFileCursor) r,
      readRow mappedOps cfg fuel cap yi s = some r →
      r.cur.data = s.data ∧
      ∃ k, r.cap = 2 ^ k * cap ∧
        (∀ j < k, tryParse cfg (2 ^ j * cap) s.mbuf = .overflow) ∧
        ((∃ n, tryParse cfg r.cap s.mbuf = .okay r.cells n ∧ r.ok = true ∧
            n ≤ s.mbuf.length ∧ r.cur.pos = s.pos + n) ∨
         (tryParse cfg r.cap s.mbuf = .underrun r.cells ∧ r.cells ≠ [] ∧ yi = true ∧
            r.ok = true ∧ r.cur.pos = s.pos + s.mbuf.length) ∨
         (tryParse cfg r.cap s.mbuf = .underrun r.cells ∧ ¬(r.cells ≠ [] ∧ yi = true) ∧
            r.ok = false ∧ r.cur = s)) := by
  intro fuel
  induction fuel with
  | zero => intro cap yi s r h; simp [readRow] at h
  | succ fuel IH =>
      intro cap yi s r h
      have hlen : s.mbuf.length = s.data.length - s.pos := by
        simp [MappedFileCursor.mbuf]
      rcases hres : tryParse cfg cap s.mbuf with ⟨cells, n⟩ | _ | a
      · -- okay: consume n
        have hn := tryParse_res cfg cap s.mbuf
        rw [hres] at hn
        obtain ⟨-, -, hn2, -⟩ := hn
        rw [readRow] at h
        simp only [mappedOps, hres] at h
        have hr : r = ⟨true, cells, cap, s.mconsume n⟩ := by
          cases h; rfl
        subst hr
        refine ⟨rfl, 0, by simp, by omega, Or.inl ⟨n, by simpa using hres, rfl, hn2, ?_⟩⟩
        simp only [MappedFileCursor.mconsume]
        omega
      · -- overflow: double and retry at the same position
        rw [readRow] at h
        simp only [mappedOps, hres] at h
        obtain ⟨hdata, k', hcap, hchain, hdisj⟩ := IH (2 * cap) yi s r h
        refine ⟨hdata, k' + 1, ?_, ?_, ?_⟩
        · rw [hcap, pow_succ]; ring
        · intro j hj
          cases j with
          | zero => simpa using hres
          | succ j' =>
              have := hchain j' (by omega)
              have heq : 2 ^ (j' + 1) * cap = 2 ^ j' * (2 * cap) := by
                rw [pow_succ]; ring
              rw [heq]
              exact this
        · have heq : 2 ^ (k' + 1) * cap = 2 ^ k' * (2 * cap) := by
            rw [pow_succ]; ring
          rw [show r.cap = 2 ^ (k' + 1) * cap from by rw [hcap, pow_succ]; ring] at hdisj ⊢
          rw [heq]
          rw [heq] at hdisj
          exact hdisj
      · -- underrun: fill() is false on a mapped cursor
        rw [readRow] at h
        simp only [mappedOps, hres] at h
        by_cases hy : a ≠ [] ∧ yi = true
        · rw [if_pos hy] at h
          have hr : r = ⟨true, a, cap, s.mconsume s.mbuf.length⟩ := by
            cases h; rfl
          subst hr
          refine ⟨rfl, 0, by simp, by omega,
            Or.inr (Or.inl ⟨by simpa using hres, hy.1, hy.2, rfl, ?_⟩)⟩
          simp only [MappedFileCursor.mconsume]
          omega
        · rw [if_neg hy] at h
          have hr : r = ⟨false, a, cap, s⟩ := by
            cases h; rfl
          subst hr
          exact ⟨rfl, 0, by simp, by omega,
            Or.inr (Or.inr ⟨by simpa using hres, hy, rfl, rfl⟩)⟩

/-- **C1, amended.** With `yield_incomplete_row=true`, when the mapped
cursor reaches end-of-input mid-row with at least one committed cell,
`read_row()` returns true and the row consists of exactly the cells that
were committed (completed by a delimiter) before end-of-input; the bytes
of the trailing cell still being scanned are consumed but not exposed as
a cell. -/
theorem c1_amended_incomplete_row (cfg : Config) (fuel cap : Nat) (s : MappedFileCursor)
    (a : List CsvCell) (h : tryParse cfg cap s.mbuf = .underrun a) (ha : a ≠ []) :
    readRow mappedOps cfg (fuel + 1) cap true s =
      some ⟨true, a, cap, s.mconsume s.mbuf.length⟩ := by
  rw [readRow]
  simp only [mappedOps, h]
  rw [if_neg (by simp), if_pos ⟨ha, trivial⟩]

/-- Witness for the amended C1 on the input `a,b` itself: `try_parse`
underruns having committed only the cell `a`, `read_row` yields it, and
the single emitted row decodes to `["a"]`. -/
theorem c1_amended_incomplete_row_witness :
    tryParse defCfg 32 (MappedFileCursor.mbuf ⟨[97, 44, 98], 0⟩) =
        .underrun [⟨some 0, 1, false⟩] ∧
      readRow mappedOps defCfg (1 + 1) 32 true ⟨[97, 44, 98], 0⟩ =
        some ⟨true, [⟨some 0, 1, false⟩], 32,
          MappedFileCursor.mconsume ⟨[97, 44, 98], 0⟩
            (MappedFileCursor.mbuf ⟨[97, 44, 98], 0⟩).length⟩ ∧
      decodedRow defCfg [⟨some 0, 1, false⟩] [97, 44, 98] = [[97]] :=
  ⟨by decide,
   c1_amended_incomplete_row defCfg 1 32 ⟨[97, 44, 98], 0⟩ [⟨some 0, 1, false⟩]
     (by decide) (by decide),
   by decide⟩

/-- **C1, counterexample.** On the input bytes `a,b` with no trailing
terminator and `yield_incomplete_row=true`, `read_row()` does return
true, but the emitted row's decoded cells are `["a"]` and not
`["a", "b"]`: the trailing cell `b`, never terminated, is dropped. -/
theorem c1_counterexample :
    readRow mappedOps defCfg 2 32 true ⟨[97, 44, 98], 0⟩ =
        some ⟨true, [⟨some 0, 1, false⟩], 32, ⟨[97, 44, 98], 3⟩⟩ ∧
      decodedRow defCfg [⟨some 0, 1, false⟩] [97, 44, 98] ≠ [[97], [98]] := by decide

/-! ## The buffered cursor -/

set_option maxRecDepth 2000 in
/-- **C2, amended.** `fill()` returns false when the read reports an
error (`readmore()` = −1); otherwise it returns true iff `write_pos_`
is positive after the call — i.e. iff any bytes are buffered — whether
or not the call made additional bytes available. -/
theorem c2_amended_fill_result (s : BufferedStreamCursor) :
    (s.bfill.1 = true) ↔ (s.pending.head? ≠ some none ∧ 0 < s.bfill.2.writePos) := by
  obtain ⟨vec, rp, wp, pending⟩ := s
  rcases pending with _ | ⟨err | chunk, rest⟩ <;>
    simp only [BufferedStreamCursor.bfill, BufferedStreamCursor.ensure,
      BufferedStreamCursor.readmore] <;>
    split_ifs <;>
    simp

/-- `fill()` on a cursor with `read_pos_ = 0`, data pending on the
descriptor and headroom in the buffer: the chunk lands at `write_pos_`
and the call returns whether any bytes are now buffered. -/
theorem bfill_read (vec chunk : List Nat) (rest : List (Option (List Nat))) (wp : Nat)
    (hne : wp ≠ vec.length) (hle : chunk.length ≤ vec.length - wp) :
    (⟨vec, 0, wp, some chunk :: rest⟩ : BufferedStreamCursor).bfill =
      (decide (0 < wp + chunk.length),
        ⟨vec.take wp ++ chunk ++ vec.drop (wp + chunk.length), 0, wp + chunk.length, rest⟩) := by
  simp only [BufferedStreamCursor.bfill, BufferedStreamCursor.ensure,
    BufferedStreamCursor.readmore]
  rw [if_neg (show ¬((0 : Nat) ≠ 0) from by simp)]
  rw [if_neg (show ¬(wp = vec.length) from hne)]
  simp only [min_eq_left hle]
  simp [List.take_of_length_le (le_refl chunk.length)]

/-- `fill()` on a cursor with `read_pos_ = 0` whose descriptor is at
end-of-input: the read returns 0 bytes, the state does not change, and
the call returns true iff bytes are still buffered. -/
theorem bfill_eof (vec : List Nat) (wp : Nat) (hne : wp ≠ vec.length) :
    (⟨vec, 0, wp, []⟩ : BufferedStreamCursor).bfill =
      (decide (0 < wp), ⟨vec, 0, wp, []⟩) := by
  simp only [BufferedStreamCursor.bfill, BufferedStreamCursor.ensure,
    BufferedStreamCursor.readmore]
  rw [if_neg (show ¬((0 : Nat) ≠ 0) from by simp)]
  rw [if_neg (show ¬(wp = vec.length) from hne)]
  simp

/-- The cursor state reached from a fresh `FdStreamCursor` after one
`fill()` that read the single byte `a`, with the descriptor now at
end-of-input. -/
def eofCursorA : BufferedStreamCursor :=
  ⟨97 :: List.replicate 131071 0, 0, 1, [some []]⟩

/-- One `fill()` on the fresh cursor reads `a` and produces
`eofCursorA`. -/
theorem bfill_mkFdCursor_a :
    (mkFdCursor [some [97], some []]).bfill = (true, eofCursorA) := by
  rw [mkFdCursor, bfill_read (List.replicate 131072 0) [97] [some []] 0
    (by rw [List.length_replicate]; omega)
    (by rw [List.length_replicate]; simp)]
  rw [List.take_zero, List.drop_replicate, eofCursorA]
  norm_num

/-- **C2, counterexample.** On `eofCursorA` — one unconsumed byte
buffered, descriptor at end-of-input — `fill()` makes no additional
progress (`size()` stays 1: the read returns 0 bytes and afterwards the
descriptor is exhausted), yet it returns true; the claim requires false
at end-of-input without progress. -/
theorem c2_counterexample :
    eofCursorA.bfill.1 = true ∧
      eofCursorA.bfill.2.bsize = eofCursorA.bsize ∧
      eofCursorA.bfill.2.pending = [] := by
  have h := bfill_read (97 :: List.replicate 131071 0) [] [] 1
    (by rw [List.length_cons, List.length_replicate]; omega)
    (by simp only [List.length_nil]; exact Nat.zero_le _)
  rw [show eofCursorA.bfill = _ from h]
  refine ⟨by norm_num, ?_, rfl⟩
  simp only [BufferedStreamCursor.bsize, eofCursorA]
  norm_num

/-- The buffered cursor once the descriptor is exhausted: one unconsumed
byte `a` (no terminator seen), nothing more to read — reached from a
fresh `FdStreamCursor` after two `fill()` calls. -/
def eofStuckCursor : BufferedStreamCursor :=
  ⟨97 :: List.replicate 131071 0, 0, 1, []⟩

/-- The second `fill()` on `eofCursorA` reads 0 bytes and leaves
`eofStuckCursor`. -/
theorem bfill_eofCursorA : eofCursorA.bfill = (true, eofStuckCursor) := by
  have h := bfill_read (97 :: List.replicate 131071 0) [] [] 1
    (by rw [List.length_cons, List.length_replicate]; omega)
    (by simp only [List.length_nil]; exact Nat.zero_le _)
  rw [show eofCursorA.bfill = _ from h, eofStuckCursor]
  norm_num

/-- **C3 (violated by the code).** With the descriptor at end-of-input
and the unconsumed bytes `a` of an unterminated row in the buffer,
`read_row()` never returns: `try_parse` underruns, `fill()` reads 0
bytes but still returns true (`write_pos_ > 0`), and the do-while loop
repeats forever with an unchanged cursor.  Formally: for every fuel
bound, every capacity and either setting of `yield_incomplete_row`, the
fuel-indexed model of `read_row` fails to produce a result. -/
theorem c3_read_row_diverges (fuel cap : Nat) (yi : Bool) :
    readRow bufferedOps defCfg fuel cap yi eofStuckCursor = none := by
  induction fuel generalizing cap with
  | zero => rfl
  | succ fuel IH =>
      have hbuf : BufferedStreamCursor.bbuf eofStuckCursor = [97] := by
        simp only [BufferedStreamCursor.bbuf, eofStuckCursor, List.drop_zero, Nat.sub_zero]
        rw [show (1 : Nat) = 0 + 1 from rfl, List.take_succ_cons, List.take_zero]
      have hparse : tryParse defCfg cap [97] = .underrun [] := by
        simp [tryParse, tpGo, defCfg]
      have hfill : BufferedStreamCursor.bfill eofStuckCursor = (true, eofStuckCursor) := by
        rw [eofStuckCursor, bfill_eof _ _ (by rw [List.length_cons, List.length_replicate]; omega)]
        norm_num
      rw [readRow]
      simp only [bufferedOps, hbuf, hparse, hfill]
      exact IH cap

/-- The buffer length and write position after a `fill()` that reads a
chunk into a cursor with `read_pos_ = 0`: the allocation length is
unchanged and `write_pos_` grows by the chunk. -/
theorem bfill_read_slack (vec chunk : List Nat) (rest : List (Option (List Nat))) (wp : Nat)
    (hne : wp ≠ vec.length) (hle : chunk.length ≤ vec.length - wp) (hwp : wp ≤ vec.length) :
    (⟨vec, 0, wp, some chunk :: rest⟩ : BufferedStreamCursor).bfill.2.vec.length = vec.length ∧
    (⟨vec, 0, wp, some chunk :: rest⟩ : BufferedStreamCursor).bfill.2.writePos =
      wp + chunk.length := by
  rw [bfill_read vec chunk rest wp hne hle]
  constructor
  · simp only [List.length_append, List.length_take, List.length_drop]
    omega
  · rfl

/-- **C4 (violated by the code).** A fresh buffered cursor of any
allocation size `n ≥ 16` (the `BufferedStreamCursor` constructor uses
`n = 131072`) satisfies the claimed invariant — at least 16 bytes of
allocated capacity past `write_pos_` — but a single `fill()` whose read
delivers a full buffer of data leaves `vec_.size() = write_pos_`: zero
bytes of slack remain, not the required 16. -/
theorem c4_slack_violation (n : Nat) (hn : 16 ≤ n) :
    16 ≤ (⟨List.replicate n 0, 0, 0,
        [some (List.replicate n 97)]⟩ : BufferedStreamCursor).vec.length -
      (⟨List.replicate n 0, 0, 0,
        [some (List.replicate n 97)]⟩ : BufferedStreamCursor).writePos ∧
    (⟨List.replicate n 0, 0, 0,
        [some (List.replicate n 97)]⟩ : BufferedStreamCursor).bfill.2.vec.length <
      (⟨List.replicate n 0, 0, 0,
        [some (List.replicate n 97)]⟩ : BufferedStreamCursor).bfill.2.writePos + 16 := by
  have h := bfill_read_slack (List.replicate n 0) (List.replicate n 97) [] 0
    (by simp only [List.length_replicate]; omega)
    (by simp only [List.length_replicate]; omega)
    (by simp only [List.length_replicate]; omega)
  constructor
  · simp only [List.length_replicate]
    omega
  · rw [h.1, h.2]
    simp only [List.length_replicate]
    omega

/-- Witness for C4 at the smallest qualifying allocation size. -/
theorem c4_slack_violation_witness :
    (16 : Nat) ≤ 16 ∧
      (16 ≤ (⟨List.replicate 16 0, 0, 0,
          [some (List.replicate 16 97)]⟩ : BufferedStreamCursor).vec.length -
        (⟨List.replicate 16 0, 0, 0,
          [some (List.replicate 16 97)]⟩ : BufferedStreamCursor).writePos ∧
      (⟨List.replicate 16 0, 0, 0,
          [some (List.replicate 16 97)]⟩ : BufferedStreamCursor).bfill.2.vec.length <
        (⟨List.replicate 16 0, 0, 0,
          [some (List.replicate 16 97)]⟩ : BufferedStreamCursor).bfill.2.writePos + 16) :=
  ⟨by decide, c4_slack_violation 16 (by decide)⟩


/-- Witness for C8 at the row `a\n` on a mapped cursor: one successful
parse, no overflow (`k = 0`), cursor advanced by the 2 consumed bytes. -/
theorem c8_cursor_frame_witness :
    readRow mappedOps defCfg 1 32 false ⟨[97, 10], 0⟩ =
        some ⟨true, [⟨some 0, 1, false⟩], 32, ⟨[97, 10], 2⟩⟩ ∧
      ((⟨[97, 10], 2⟩ : MappedFileCursor).data = ([97, 10] : List Nat) ∧
        ∃ k, (32 : Nat) = 2 ^ k * 32 ∧
          (∀ j < k, tryParse defCfg (2 ^ j * 32)
              (MappedFileCursor.mbuf ⟨[97, 10], 0⟩) = .overflow) ∧
          ((∃ n, tryParse defCfg 32 (MappedFileCursor.mbuf ⟨[97, 10], 0⟩) =
                .okay [⟨some 0, 1, false⟩] n ∧ (true : Bool) = true ∧
              n ≤ (MappedFileCursor.mbuf ⟨[97, 10], 0⟩).length ∧
              (⟨[97, 10], 2⟩ : MappedFileCursor).pos = 0 + n) ∨
           (tryParse defCfg 32 (MappedFileCursor.mbuf ⟨[97, 10], 0⟩) =
                .underrun [⟨some 0, 1, false⟩] ∧
              ([⟨some 0, 1, false⟩] : List CsvCell) ≠ [] ∧ (false : Bool) = true ∧
              (true : Bool) = true ∧
              (⟨[97, 10], 2⟩ : MappedFileCursor).pos =
                0 + (MappedFileCursor.mbuf ⟨[97, 10], 0⟩).length) ∨
           (tryParse defCfg 32 (MappedFileCursor.mbuf ⟨[97, 10], 0⟩) =
                .underrun [⟨some 0, 1, false⟩] ∧
              ¬(([⟨some 0, 1, false⟩] : List CsvCell) ≠ [] ∧ (false : Bool) = true) ∧
              (true : Bool) = false ∧
              (⟨[97, 10], 2⟩ : MappedFileCursor) = ⟨[97, 10], 0⟩))) :=
  ⟨by decide, c8_cursor_frame defCfg 1 32 false ⟨[97, 10], 0⟩
    ⟨true, [⟨some 0, 1, false⟩], 32, ⟨[97, 10], 2⟩⟩ (by decide)⟩

/-! ## The two spanners -/

/-- One-step unfolding of the SSE scan. -/
theorem sseFirst_succ (needle w : List Nat) (fuel j : Nat) :
    sseFirst needle w (fuel + 1) j =
      if w.getD j 0 ∈ needle then j else sseFirst needle w fuel (j + 1) := rfl

/-- The four-byte-stride fallback loop agrees with the one-byte scan
whenever the table test coincides with needle membership. -/
theorem fallbackLoop_eq_sseFirst (ch : Nat → Bool) (needle w : List Nat)
    (hmatch : ∀ b, ch b = true ↔ b ∈ needle) :
    ∀ n p, fallbackLoop ch w n p = sseFirst needle w (4 * n) p := by
  intro n
  induction n with
  | zero => intro p; rfl
  | succ n ih =>
      intro p
      have e4 : 4 * (n + 1) = 4 * n + 1 + 1 + 1 + 1 := by ring
      rw [e4]
      simp only [fallbackLoop, sseFirst_succ, List.getD_eq_getElem?_getD,
        show p + 1 + 1 = p + 2 from rfl, show p + 1 + 1 + 1 = p + 3 from rfl,
        show p + 1 + 1 + 1 + 1 = p + 4 from rfl]
      by_cases h1 : ch ((w[p]?).getD 0)
      · simp [h1, (hmatch _).mp h1]
      · have m1 : (w[p]?).getD 0 ∉ needle := fun hm => h1 ((hmatch _).mpr hm)
        by_cases h2 : ch ((w[p + 1]?).getD 0)
        · simp [h1, m1, h2, (hmatch _).mp h2]
        · have m2 : (w[p + 1]?).getD 0 ∉ needle := fun hm => h2 ((hmatch _).mpr hm)
          by_cases h3 : ch ((w[p + 2]?).getD 0)
          · simp [h1, m1, h2, m2, h3, (hmatch _).mp h3]
          · have m3 : (w[p + 2]?).getD 0 ∉ needle := fun hm => h3 ((hmatch _).mpr hm)
            by_cases h4 : ch ((w[p + 3]?).getD 0)
            · simp [h1, m1, h2, m2, h3, m3, h4, (hmatch _).mp h4]
            · have m4 : (w[p + 3]?).getD 0 ∉ needle := fun hm => h4 ((hmatch _).mpr hm)
              simp only [h1, m1, h2, m2, h3, m3, h4, m4, if_neg, if_false]
              exact ih (p + 4)

/-- When no nonzero target follows a zero argument slot, the fallback
table (four slots set, slot 0 cleared) accepts exactly the bytes of the
SSE needle (the targets up to the first zero). -/
theorem mkCharset_eq_needle (c1 c2 c3 c4 : Nat)
    (h1 : c1 = 0 → c2 = 0) (h2 : c2 = 0 → c3 = 0) (h3 : c3 = 0 → c4 = 0) :
    ∀ b, mkCharset c1 c2 c3 c4 b = true ↔
      b ∈ List.takeWhile (fun x => x != 0) [c1, c2, c3, c4] := by
  intro b
  by_cases e1 : c1 = 0
  · have e2 := h1 e1
    have e3 := h2 e2
    have e4 := h3 e3
    subst e1; subst e2; subst e3; subst e4
    simp [mkCharset, List.takeWhile_cons]
  · by_cases e2 : c2 = 0
    · have e3 := h2 e2
      have e4 := h3 e3
      subst e2; subst e3; subst e4
      have hN : List.takeWhile (fun x => x != 0) [c1, 0, 0, 0] = [c1] := by
        simp [List.takeWhile_cons, e1]
      rw [hN]
      simp only [mkCharset, decide_eq_true_eq, List.mem_singleton]
      constructor
      · rintro ⟨hb0, h | h | h | h⟩ <;> simp_all
      · intro hb; simp_all
    · by_cases e3 : c3 = 0
      · have e4 := h3 e3
        subst e3; subst e4
        have hN : List.takeWhile (fun x => x != 0) [c1, c2, 0, 0] = [c1, c2] := by
          simp [List.takeWhile_cons, e1, e2]
        rw [hN]
        simp only [mkCharset, decide_eq_true_eq, List.mem_cons, List.mem_singleton,
          List.not_mem_nil, or_false]
        constructor
        · rintro ⟨hb0, h | h | h | h⟩ <;> simp_all
        · intro hb; rcases hb with hb | hb <;> simp_all
      · by_cases e4 : c4 = 0
        · subst e4
          have hN : List.takeWhile (fun x => x != 0) [c1, c2, c3, 0] = [c1, c2, c3] := by
            simp [List.takeWhile_cons, e1, e2, e3]
          rw [hN]
          simp only [mkCharset, decide_eq_true_eq, List.mem_cons, List.mem_singleton,
            List.not_mem_nil, or_false]
          constructor
          · rintro ⟨hb0, h | h | h | h⟩ <;> simp_all
          · intro hb; rcases hb with hb | hb | hb <;> simp_all
        · have hN : List.takeWhile (fun x => x != 0) [c1, c2, c3, c4] = [c1, c2, c3, c4] := by
            simp [List.takeWhile_cons, e1, e2, e3, e4]
          rw [hN]
          simp only [mkCharset, decide_eq_true_eq, List.mem_cons, List.mem_singleton,
            List.not_mem_nil, or_false]
          constructor
          · rintro ⟨hb0, h | h | h | h⟩ <;> simp_all
          · intro hb; rcases hb with hb | hb | hb | hb <;> simp_all

/-- **C7, amended.** The scalar fallback spanner and the SSE4.2 spanner
return the same first-match index over a 16-byte window, provided no
nonzero target follows a zero in the four constructor arguments (the
SSE needle is implicitly NUL-terminated) and the window contains no NUL
byte (NUL truncates the SSE haystack).  Without these provisos the two
implementations differ (see the counterexample). -/
theorem c7_amended_spanners_agree (c1 c2 c3 c4 : Nat) (w : List Nat)
    (h1 : c1 = 0 → c2 = 0) (h2 : c2 = 0 → c3 = 0) (h3 : c3 = 0 → c4 = 0)
    (hw : ∀ b ∈ w.take 16, b ≠ 0) (hlen : 16 ≤ w.length) :
    fallbackSpan c1 c2 c3 c4 w = sse42Span c1 c2 c3 c4 w := by
  have hhlen : ((w.take 16).takeWhile (fun b => b != 0)).length = 16 := by
    have : (w.take 16).takeWhile (fun b => b != 0) = w.take 16 := by
      rw [List.takeWhile_eq_self_iff]
      intro a ha
      simpa using hw a ha
    rw [this, List.length_take]
    omega
  simp only [fallbackSpan, sse42Span, hhlen]
  rw [show (16 : Nat) = 4 * 4 from rfl]
  exact fallbackLoop_eq_sseFirst _ _ _ (mkCharset_eq_needle c1 c2 c3 c4 h1 h2 h3) 4 0

/-- Witness for the amended C7: the parser's default unquoted-cell
configuration `{',', CR, LF, 0}` on a NUL-free window of `a` bytes. -/
theorem c7_amended_spanners_agree_witness :
    ((44 : Nat) = 0 → (13 : Nat) = 0) ∧ ((13 : Nat) = 0 → (10 : Nat) = 0) ∧
      ((10 : Nat) = 0 → (0 : Nat) = 0) ∧
      (∀ b ∈ (List.replicate 16 (97 : Nat)).take 16, b ≠ 0) ∧
      16 ≤ (List.replicate 16 (97 : Nat)).length ∧
      fallbackSpan 44 13 10 0 (List.replicate 16 97) =
        sse42Span 44 13 10 0 (List.replicate 16 97) :=
  ⟨by decide, by decide, by decide, by decide, by decide,
   c7_amended_spanners_agree 44 13 10 0 (List.replicate 16 97)
     (by decide) (by decide) (by decide) (by decide) (by decide)⟩

/-- **C7, counterexample.** With the targets `(97, 0, 98, 0)` — a zero
slot before a nonzero one — on a window of `b` bytes, the fallback
spanner (whose 256-entry table registers all four slots) reports a match
at index 0 while the SSE4.2 spanner (whose needle stops at the first
zero slot, here after `97`) reports no match: the two implementations
disagree on the same inputs. -/
theorem c7_counterexample :
    fallbackSpan 97 0 98 0 (List.replicate 16 98) = 0 ∧
      sse42Span 97 0 98 0 (List.replicate 16 98) = 16 := by decide

/-- A non-16 fallback result points at a byte the table accepts. -/
theorem fallbackLoop_result (ch : Nat → Bool) (w : List Nat) :
    ∀ n p, fallbackLoop ch w n p ≠ 16 →
      ch (w.getD (fallbackLoop ch w n p) 0) = true := by
  intro n
  induction n with
  | zero => intro p h; simp [fallbackLoop] at h
  | succ n ih =>
      intro p h
      rw [fallbackLoop] at h ⊢
      by_cases h1 : ch (w.getD p 0)
      · rw [if_pos h1] at h ⊢; exact h1
      · rw [if_neg h1] at h ⊢
        by_cases h2 : ch (w.getD (p + 1) 0)
        · rw [if_pos h2] at h ⊢; exact h2
        · rw [if_neg h2] at h ⊢
          by_cases h3 : ch (w.getD (p + 2) 0)
          · rw [if_pos h3] at h ⊢; exact h3
          · rw [if_neg h3] at h ⊢
            by_cases h4 : ch (w.getD (p + 3) 0)
            · rw [if_pos h4] at h ⊢; exact h4
            · rw [if_neg h4] at h ⊢
              exact ih (p + 4) h

/-- A non-16 SSE result points at a byte of the needle. -/
theorem sseFirst_result (needle w : List Nat) :
    ∀ fuel j, sseFirst needle w fuel j ≠ 16 →
      w.getD (sseFirst needle w fuel j) 0 ∈ needle := by
  intro fuel
  induction fuel with
  | zero => intro j h; simp [sseFirst] at h
  | succ fuel ih =>
      intro j h
      rw [sseFirst] at h ⊢
      by_cases h1 : w.getD j 0 ∈ needle
      · rw [if_pos h1] at h ⊢; exact h1
      · rw [if_neg h1] at h ⊢
        exact ih (j + 1) h

/-- **C9.** Neither spanner ever treats the zero byte as a target: if
the byte at the returned offset is NUL, the result is 16 (no match) —
for every configuration, including ones that list 0 among the targets,
and for both implementations. -/
theorem c9_nul_never_target (c1 c2 c3 c4 : Nat) (w : List Nat) :
    (w.getD (fallbackSpan c1 c2 c3 c4 w) 0 = 0 → fallbackSpan c1 c2 c3 c4 w = 16) ∧
    (w.getD (sse42Span c1 c2 c3 c4 w) 0 = 0 → sse42Span c1 c2 c3 c4 w = 16) := by
  constructor
  · intro h0
    by_contra hne
    simp only [fallbackSpan] at h0 hne
    have := fallbackLoop_result (mkCharset c1 c2 c3 c4) w 4 0 hne
    rw [h0] at this
    simp [mkCharset] at this
  · intro h0
    by_contra hne
    simp only [sse42Span] at h0 hne
    have := sseFirst_result _ w _ 0 hne
    rw [h0] at this
    have := List.mem_takeWhile_imp this
    simp at this

/-- Witness for C9: the default unquoted-target configuration over an
all-NUL window; both spanners return 16. -/
theorem c9_nul_never_target_witness :
    ((List.replicate 16 (0 : Nat)).getD
        (fallbackSpan 44 13 10 0 (List.replicate 16 0)) 0 = 0) ∧
      fallbackSpan 44 13 10 0 (List.replicate 16 0) = 16 ∧
      sse42Span 44 13 10 0 (List.replicate 16 0) = 16 :=
  ⟨by decide,
   (c9_nul_never_target 44 13 10 0 (List.replicate 16 0)).1 (by decide),
   (c9_nul_never_target 44 13 10 0 (List.replicate 16 0)).2 (by decide)⟩

/-! ## The row count (C6) -/

theorem bump_rowEnd {m : MRes} {k : Nat} (h : m.bump = .rowEnd k) :
    ∃ j, m = .rowEnd j ∧ k = j + 1 := by
  cases m with
  | rowEnd j =>
      refine ⟨j, rfl, ?_⟩
      simp only [MRes.bump] at h
      injection h with h'
      omega
  | exhaust b => simp [MRes.bump] at h

theorem simOk_bump {i : Nat} {res : TryParseResult} {m : MRes}
    (h : simOk (i + 1) res m) : simOk i res m.bump := by
  cases res with
  | okay cells n =>
      obtain ⟨h1, h2⟩ := h
      subst h2
      refine ⟨by omega, ?_⟩
      have he : n - (i + 1) + 1 = n - i := by omega
      simp only [MRes.bump, he]
  | overflow => trivial
  | underrun a =>
      show m.bump = _
      rw [show m = .exhaust (!a.isEmpty) from h]
      rfl

/-- Every `try_parse` walk is tracked by the cell-free machine: a
successful parse of `n - i` further bytes makes the machine report
`rowEnd (n - i)`, and an interrupted parse holding cells iff the machine
exhausts with `hasCells` set. -/
theorem mGo_sim (cfg : Config) (cap : Nat) :
    ∀ rest st i acc,
      simOk i (tpGo cfg cap st rest i acc) (mGo cfg (projSt st) (!acc.isEmpty) rest) := by
  intro rest
  induction rest with
  | nil => intro st i acc; cases st <;> rfl
  | cons c r IH =>
      intro st i acc
      have hcommit : ∀ (cell : CsvCell),
          simOk i (tpGo cfg cap .cellStart r (i + 1) (acc ++ [cell]))
            ((mGo cfg .start true r).bump) := by
        intro cell
        have hb := IH .cellStart (i + 1) (acc ++ [cell])
        have he : (!(acc ++ [cell]).isEmpty) = true := by cases acc <;> rfl
        rw [he] at hb
        exact simOk_bump hb
      have hterm : ∀ (cells : List CsvCell),
          simOk i (.okay cells (i + 1)) (MRes.rowEnd 1) := by
        intro cells
        refine ⟨by omega, ?_⟩
        have he : i + 1 - i = 1 := by omega
        rw [he]
      cases st with
      | newlineSkip =>
          simp only [tpGo, projSt, mGo]
          by_cases h1 : c = 13 ∨ c = 10
          · rw [if_pos h1, if_pos h1]
            exact simOk_bump (IH .newlineSkip (i + 1) acc)
          · rw [if_neg h1, if_neg h1]
            by_cases h2 : c = cfg.quotechar
            · rw [if_pos h2, if_pos h2]
              exact simOk_bump (IH (.inQuoted (i + 1) false) (i + 1) acc)
            · rw [if_neg h2, if_neg h2]
              by_cases h3 : c ≠ 0 ∧ (c = cfg.delimiter ∨ c = 13 ∨ c = 10 ∨ c = cfg.escapechar)
              · rw [if_pos h3, if_pos h3]
                by_cases h4 : c = cfg.delimiter
                · rw [if_pos h4, if_pos h4]
                  by_cases h5 : (acc ++ [(⟨some i, 0, false⟩ : CsvCell)]).length = cap
                  · rw [if_pos h5]; trivial
                  · rw [if_neg h5]
                    exact hcommit _
                · rw [if_neg h4, if_neg h4]
                  exact simOk_bump (IH (.inUnquoted i true) (i + 1) acc)
              · rw [if_neg h3, if_neg h3]
                exact simOk_bump (IH (.inUnquoted i false) (i + 1) acc)
      | cellStart =>
          simp only [tpGo, projSt, mGo]
          by_cases h1 : c = 13 ∨ c = 10
          · rw [if_pos h1, if_pos h1]
            exact hterm _
          · rw [if_neg h1, if_neg h1]
            by_cases h2 : c = cfg.quotechar
            · rw [if_pos h2, if_pos h2]
              exact simOk_bump (IH (.inQuoted (i + 1) false) (i + 1) acc)
            · rw [if_neg h2, if_neg h2]
              by_cases h3 : c ≠ 0 ∧ (c = cfg.delimiter ∨ c = 13 ∨ c = 10 ∨ c = cfg.escapechar)
              · rw [if_pos h3, if_pos h3]
                by_cases h4 : c = cfg.delimiter
                · rw [if_pos h4, if_pos h4]
                  by_cases h5 : (acc ++ [(⟨some i, 0, false⟩ : CsvCell)]).length = cap
                  · rw [if_pos h5]; trivial
                  · rw [if_neg h5]
                    exact hcommit _
                · rw [if_neg h4, if_neg h4]
                  exact simOk_bump (IH (.inUnquoted i true) (i + 1) acc)
              · rw [if_neg h3, if_neg h3]
                exact simOk_bump (IH (.inUnquoted i false) (i + 1) acc)
      | inQuoted cs e =>
          simp only [tpGo, projSt, mGo]
          by_cases h1 : c ≠ 0 ∧ (c = cfg.quotechar ∨ c = cfg.escapechar)
          · rw [if_pos h1, if_pos h1]
            exact simOk_bump (IH (.escEndQuoted cs e) (i + 1) acc)
          · rw [if_neg h1, if_neg h1]
            exact simOk_bump (IH (.inQuoted cs e) (i + 1) acc)
      | escEndQuoted cs e =>
          simp only [tpGo, projSt, mGo]
          by_cases h1 : c = cfg.delimiter
          · rw [if_pos h1, if_pos h1]
            by_cases h5 : (acc ++ [(⟨some cs, i - cs - 1, e⟩ : CsvCell)]).length = cap
            · rw [if_pos h5]; trivial
            · rw [if_neg h5]
              exact hcommit _
          · rw [if_neg h1, if_neg h1]
            by_cases h2 : c = 13 ∨ c = 10
            · rw [if_pos h2, if_pos h2]
              exact hterm _
            · rw [if_neg h2, if_neg h2]
              exact simOk_bump (IH (.inQuoted cs true) (i + 1) acc)
      | inUnquoted cs e =>
          simp only [tpGo, projSt, mGo]
          by_cases h1 : c ≠ 0 ∧ (c = cfg.delimiter ∨ c = 13 ∨ c = 10 ∨ c = cfg.escapechar)
          · rw [if_pos h1, if_pos h1]
            by_cases h4 : c = cfg.delimiter
            · rw [if_pos h4, if_pos h4]
              by_cases h5 : (acc ++ [(⟨some cs, i - cs, e⟩ : CsvCell)]).length = cap
              · rw [if_pos h5]; trivial
              · rw [if_neg h5]
                exact hcommit _
            · rw [if_neg h4, if_neg h4]
              by_cases h2 : c = 13 ∨ c = 10
              · rw [if_pos h2, if_pos h2]
                exact hterm _
              · rw [if_neg h2, if_neg h2]
                exact simOk_bump (IH (.inUnquoted cs true) (i + 1) acc)
          · rw [if_neg h1, if_neg h1]
            exact simOk_bump (IH (.inUnquoted cs e) (i + 1) acc)

/-- A completed row walk consumes at least one byte and at most the
window. -/
theorem mGo_rowEnd_bounds (cfg : Config) :
    ∀ (rest : List Nat) (st : MSt) (hc : Bool) (k : Nat),
      mGo cfg st hc rest = .rowEnd k → 1 ≤ k ∧ k ≤ rest.length := by
  intro rest
  induction rest with
  | nil => intro st hc k h; cases st <;> simp [mGo] at h
  | cons c r IH =>
      intro st hc k h
      cases st <;> simp only [mGo] at h <;> split_ifs at h <;>
        first
        | (obtain ⟨j, hj, hk⟩ := bump_rowEnd h
           have := IH _ _ _ hj
           simp only [List.length_cons]
           omega)
        | (injection h with h'
           simp only [List.length_cons]
           omega)

theorem specCountGo_nil (cfg : Config) (yi : Bool) :
    ∀ f, specCountGo cfg yi f [] = 0 := by
  intro f
  cases f with
  | zero => rfl
  | succ f => simp [specCountGo, mRowOf, mGo]

theorem specCountGo_rowEnd (cfg : Config) (yi : Bool) (f : Nat) (buf : List Nat) (k : Nat)
    (h : mRowOf cfg buf = .rowEnd k) :
    specCountGo cfg yi (f + 1) buf = specCountGo cfg yi f (buf.drop k) + 1 := by
  simp only [specCountGo, h]

theorem specCountGo_exhaust (cfg : Config) (yi : Bool) (f : Nat) (buf : List Nat) (hc : Bool)
    (h : mRowOf cfg buf = .exhaust hc) :
    specCountGo cfg yi (f + 1) buf = if yi ∧ hc = true then 1 else 0 := by
  simp only [specCountGo, h]

/-- Any fuel at least the window length computes the same row count:
every completed row consumes at least one byte. -/
theorem specCountGo_fuel (cfg : Config) (yi : Bool) :
    ∀ f1 f2 buf, buf.length ≤ f1 → buf.length ≤ f2 →
      specCountGo cfg yi f1 buf = specCountGo cfg yi f2 buf := by
  intro f1
  induction f1 with
  | zero =>
      intro f2 buf h1 _
      have hb : buf = [] := List.eq_nil_of_length_eq_zero (by omega)
      subst hb
      rw [specCountGo_nil, specCountGo_nil]
  | succ f1 IH =>
      intro f2 buf h1 h2
      cases buf with
      | nil => rw [specCountGo_nil, specCountGo_nil]
      | cons c r =>
          cases f2 with
          | zero => simp at h2
          | succ f2 =>
              cases hrow : mRowOf cfg (c :: r) with
              | rowEnd k =>
                  have hb := mGo_rowEnd_bounds cfg (c :: r) .skip false k
                    (by simpa [mRowOf] using hrow)
                  rw [specCountGo_rowEnd cfg yi f1 _ k hrow,
                      specCountGo_rowEnd cfg yi f2 _ k hrow]
                  have hlen : ((c :: r).drop k).length = (c :: r).length - k := by
                    simp
                  have hrec := IH f2 ((c :: r).drop k)
                    (by simp only [List.length_drop, List.length_cons] at h1 hb ⊢; omega)
                    (by simp only [List.length_drop, List.length_cons] at h2 hb ⊢; omega)
                  omega
              | exhaust hc =>
                  rw [specCountGo_exhaust cfg yi f1 _ hc hrow,
                      specCountGo_exhaust cfg yi f2 _ hc hrow]

/-- Consuming `n ≤ size()` bytes of a mapped cursor drops them from the
window. -/
theorem mconsume_mbuf (s : MappedFileCursor) (n : Nat) (h : n ≤ s.mbuf.length) :
    (s.mconsume n).mbuf = s.mbuf.drop n := by
  simp only [MappedFileCursor.mbuf, MappedFileCursor.mconsume, List.length_drop] at h ⊢
  rw [List.drop_drop]
  congr 1
  omega

/-- What a completed `read_row()` call on a mapped cursor means: some
capacity's parse succeeded and was consumed, or the window underran and
the committed cells were yielded (whole window consumed) or refused
(cursor untouched). -/
theorem readRow_mapped_spec (cfg : Config) :
    ∀ (fuel cap : Nat) (yi : Bool) (s : MappedFileCursor) (r : RowResult MappedFileCursor),
      readRow mappedOps cfg fuel cap yi s = some r →
      (∃ cells n cap2, tryParse cfg cap2 s.mbuf = .okay cells n ∧ n ≤ s.mbuf.length ∧
          r = ⟨true, cells, cap2, s.mconsume n⟩) ∨
      (∃ a cap2, tryParse cfg cap2 s.mbuf = .underrun a ∧ a ≠ [] ∧ yi = true ∧
          r = ⟨true, a, cap2, s.mconsume s.mbuf.length⟩) ∨
      (∃ a cap2, tryParse cfg cap2 s.mbuf = .underrun a ∧ ¬(a ≠ [] ∧ yi = true) ∧
          r = ⟨false, a, cap2, s⟩) := by
  intro fuel
  induction fuel with
  | zero => intro cap yi s r h; simp [readRow] at h
  | succ fuel IH =>
      intro cap yi s r h
      rcases hres : tryParse cfg cap s.mbuf with ⟨cells, n⟩ | _ | a
      · have hn := tryParse_res cfg cap s.mbuf
        rw [hres] at hn
        obtain ⟨-, -, hn2, -⟩ := hn
        rw [readRow] at h
        simp only [mappedOps, hres] at h
        exact Or.inl ⟨cells, n, cap, hres, hn2, by cases h; rfl⟩
      · rw [readRow] at h
        simp only [mappedOps, hres] at h
        exact IH (2 * cap) yi s r h
      · rw [readRow] at h
        simp only [mappedOps, hres] at h
        by_cases hy : a ≠ [] ∧ yi = true
        · rw [if_pos hy] at h
          exact Or.inr (Or.inl ⟨a, cap, hres, hy.1, hy.2, by cases h; rfl⟩)
        · rw [if_neg hy] at h
          exact Or.inr (Or.inr ⟨a, cap, hres, hy, by cases h; rfl⟩)

/-- **C6, amended.** The number of rows emitted by successive
`read_row()` calls equals the number of completed row walks of the
input — one per terminator that ends a row, terminator runs being
absorbed by `newline_skip` without emitting rows — plus one when the
input ends mid-row with a committed cell and `yield_incomplete_row` is
set. -/
theorem c6_amended (cfg : Config) :
    ∀ (fuel cap : Nat) (yi : Bool) (s : MappedFileCursor) (rows : List (List CsvCell)),
      readAll cfg fuel cap yi s = some rows →
      rows.length = specRowCount cfg yi s.mbuf := by
  intro fuel
  induction fuel with
  | zero => intro cap yi s rows h; simp [readAll] at h
  | succ fuel IH =>
      intro cap yi s rows h
      rw [readAll] at h
      cases hrr : readRow mappedOps cfg (fuel + 1) cap yi s with
      | none => simp [hrr] at h
      | some r =>
          simp only [hrr] at h
          rcases readRow_mapped_spec cfg (fuel + 1) cap yi s r hrr with
            ⟨cells, n, cap2, htp, hn2, hr⟩ | ⟨a, cap2, htp, hne, hyi, hr⟩ |
            ⟨a, cap2, htp, hny, hr⟩
          · -- a successful parse of n bytes
            have hok : r.ok = true := by rw [hr]
            rw [if_pos hok] at h
            rcases hAll : readAll cfg fuel r.cap yi r.cur with _ | rows'
            · rw [hAll] at h; simp at h
            · rw [hAll] at h
              simp at h
              subst h
              have hlen' := IH r.cap yi r.cur rows' hAll
              have hcur : r.cur = s.mconsume n := by rw [hr]
              have hcm : r.cur.mbuf = s.mbuf.drop n := by
                rw [hcur]; exact mconsume_mbuf s n hn2
              have hsim := mGo_sim cfg cap2 s.mbuf .newlineSkip 0 []
              rw [show tpGo cfg cap2 .newlineSkip s.mbuf 0 [] = .okay cells n from htp] at hsim
              obtain ⟨hn0, hrow0⟩ := hsim
              have hrow : mRowOf cfg s.mbuf = .rowEnd n := by
                simp only [mRowOf]
                simpa [projSt] using hrow0
              obtain ⟨f, hf⟩ : ∃ f, s.mbuf.length = f + 1 := ⟨s.mbuf.length - 1, by omega⟩
              simp only [List.length_cons]
              simp only [specRowCount]
              rw [hf, specCountGo_rowEnd cfg yi f s.mbuf n hrow]
              have hfuel : specCountGo cfg yi f (s.mbuf.drop n) =
                  specCountGo cfg yi (s.mbuf.drop n).length (s.mbuf.drop n) :=
                specCountGo_fuel cfg yi f (s.mbuf.drop n).length (s.mbuf.drop n)
                  (by simp only [List.length_drop]; omega) (le_refl _)
              rw [hfuel]
              rw [hcm] at hlen'
              simp only [specRowCount] at hlen'
              omega
          · -- end-of-input mid-row, the committed cells are yielded
            have hok : r.ok = true := by rw [hr]
            rw [if_pos hok] at h
            rcases hAll : readAll cfg fuel r.cap yi r.cur with _ | rows'
            · rw [hAll] at h; simp at h
            · rw [hAll] at h
              simp at h
              subst h
              have hlen' := IH r.cap yi r.cur rows' hAll
              have hcur : r.cur = s.mconsume s.mbuf.length := by rw [hr]
              have hcm : r.cur.mbuf = [] := by
                rw [hcur, mconsume_mbuf s s.mbuf.length (le_refl _), List.drop_length]
              rw [hcm] at hlen'
              have hz : rows'.length = 0 := by
                rw [hlen']
                simp [specRowCount, specCountGo_nil]
              have hsim := mGo_sim cfg cap2 s.mbuf .newlineSkip 0 []
              rw [show tpGo cfg cap2 .newlineSkip s.mbuf 0 [] = .underrun a from htp] at hsim
              have hrow : mRowOf cfg s.mbuf = .exhaust (!a.isEmpty) := by
                simp only [mRowOf]
                simpa [projSt] using hsim
              cases hbuf : s.mbuf with
              | nil =>
                  rw [hbuf] at htp
                  have h0 : (TryParseResult.underrun ([] : List CsvCell)) = .underrun a := htp
                  injection h0 with h0'
                  exact absurd h0'.symm hne
              | cons c rr =>
                  rw [hbuf] at hrow
                  have hae : (!a.isEmpty) = true := by
                    cases a with
                    | nil => exact absurd rfl hne
                    | cons x xs => rfl
                  rw [hae] at hrow
                  simp only [List.length_cons, specRowCount]
                  rw [specCountGo_exhaust cfg yi rr.length (c :: rr) true hrow]
                  rw [if_pos ⟨hyi, rfl⟩]
                  omega
          · -- end-of-input mid-row, no row yielded: false ends the run
            have hok : ¬(r.ok = true) := by rw [hr]; simp
            rw [if_neg hok] at h
            injection h with h'
            subst h'
            have hsim := mGo_sim cfg cap2 s.mbuf .newlineSkip 0 []
            rw [show tpGo cfg cap2 .newlineSkip s.mbuf 0 [] = .underrun a from htp] at hsim
            have hrow : mRowOf cfg s.mbuf = .exhaust (!a.isEmpty) := by
              simp only [mRowOf]
              simpa [projSt] using hsim
            cases hbuf : s.mbuf with
            | nil =>
                simp [specRowCount, specCountGo_nil]
            | cons c rr =>
                rw [hbuf] at hrow
                simp only [List.length_nil, specRowCount, List.length_cons]
                rw [specCountGo_exhaust cfg yi rr.length (c :: rr) (!a.isEmpty) hrow]
                by_cases hae : a = []
                · subst hae
                  simp
                · have hyi' : yi = false := by
                    cases yi with
                    | false => rfl
                    | true => exact absurd ⟨hae, rfl⟩ hny
                  rw [hyi']
                  simp

/-- Witness for C6: `a\nb\n` yields two rows, and the proved count
matches the machine's. -/
theorem c6_amended_witness :
    readAll defCfg 4 32 false ⟨[97, 10, 98, 10], 0⟩ =
      some [[⟨some 0, 1, false⟩], [⟨some 0, 1, false⟩]] ∧
    ([[(⟨some 0, 1, false⟩ : CsvCell)], [⟨some 0, 1, false⟩]] :
        List (List CsvCell)).length =
      specRowCount defCfg false (MappedFileCursor.mbuf ⟨[97, 10, 98, 10], 0⟩) :=
  ⟨by decide,
   c6_amended defCfg 4 32 false ⟨[97, 10, 98, 10], 0⟩
     [[⟨some 0, 1, false⟩], [⟨some 0, 1, false⟩]] (by decide)⟩

/-- Counterexample to C6 as stated: the input consisting of the single
byte `\n` has one line-terminator byte outside any quoted cell, yet the
reader emits zero rows — `newline_skip` absorbs the terminator and the
parse then underruns with no committed cell. -/
theorem c6_counterexample :
    readAll defCfg 2 32 false ⟨[10], 0⟩ = some [] ∧
      claimTerminatorCount defCfg false [10] = 1 := by decide
